import Mathlib

set_option maxRecDepth 40000

/-!
Verification development for the episode-selection workflow of the
misaka-danmuku-bot repository (src/callback/import_media.py).

The Python code is shallowly embedded: Python strings are modelled through
their code-point sequences (List Char wrapped in String), Python ints as
Int, Python sets of ints as Finset Int, and the per-user dict
context.user_data["episode_data_map"] as an association list.  Remote API
calls and the chat transport are external collaborators; the embedding
covers the pure data transformations the handlers perform on their inputs.
-/

/-! ## Python string primitives -/

/-- Whitespace test matching the ASCII part of the Python str.strip /
int() whitespace set: space, tab, newline, carriage return, vertical tab,
form feed. -/
def isPySpace (c : Char) : Bool :=
  c = (' ') || c = ('\t') || c = ('\n') || c = ('\r') || c = (Char.ofNat 11) || c = (Char.ofNat 12)

/-- Drop leading whitespace from a character list. -/
def dropLeadWs : List Char → List Char
  | [] => []
  | c :: cs => if isPySpace c then dropLeadWs cs else c :: cs

/-- Python str.strip() on the underlying code-point list: drop leading and
trailing whitespace. -/
def stripChars (l : List Char) : List Char :=
  (dropLeadWs ((dropLeadWs l).reverse)).reverse

/-- Python str.strip() on strings. -/
def pyStrip (s : String) : String :=
  String.mk (stripChars s.data)

/-- Helper for pySplitComma: acc holds the current fragment reversed. -/
def splitCommaAux : List Char → List Char → List (List Char)
  | [], acc => [acc.reverse]
  | c :: cs, acc =>
      if c = (',') then acc.reverse :: splitCommaAux cs []
      else splitCommaAux cs (c :: acc)

/-- Python s.split(my-comma): split on every comma, keeping empty pieces,
so that an input without commas yields the one-element list of itself. -/
def pySplitComma (s : String) : List String :=
  (splitCommaAux s.data []).map String.mk

/-- Helper for the first-hyphen split: returns the parts before and after
the first hyphen, or none when the list has no hyphen.  This models the
Python expression seg.split(hyphen, 1) in the case where the separator
occurs. -/
def splitFirstHyphenAux : List Char → List Char → Option (List Char × List Char)
  | [], _ => none
  | c :: cs, acc =>
      if c = ('-') then some (acc.reverse, cs)
      else splitFirstHyphenAux cs (c :: acc)

/-- Python seg.split(hyphen, 1) when the fragment contains a hyphen. -/
def splitFirstHyphen (s : String) : Option (String × String) :=
  (splitFirstHyphenAux s.data []).map (fun p => (String.mk p.1, String.mk p.2))

/-- Python len() of a string counts code points. -/
def pyLen (s : String) : Nat :=
  s.data.length

/-- Python s[:n] slicing by code points. -/
def pyTake (n : Nat) (s : String) : String :=
  String.mk (s.data.take n)

/-! ## Python int() parsing (ASCII subset)

Python int(str) strips whitespace, accepts one optional sign, then a
nonempty decimal digit sequence in which single underscores may separate
digits.  The model below covers the ASCII digits. -/

/-- Digit-sequence scanner with accumulator: digits, with single
underscores allowed between two digits. -/
def digitsCore (acc : Nat) : List Char → Option Nat
  | [] => some acc
  | c :: cs =>
      if c.isDigit then digitsCore (acc * 10 + (c.toNat - 48)) cs
      else if c = ('_') then
        match cs with
        | d :: cs2 => if d.isDigit then digitsCore (acc * 10 + (d.toNat - 48)) cs2 else none
        | [] => none
      else none

/-- Parse a nonempty digit sequence (with embedded single underscores). -/
def parseDigits : List Char → Option Nat
  | [] => none
  | c :: cs => if c.isDigit then digitsCore (c.toNat - 48) cs else none

/-- Signed integer parse on a stripped character list. -/
def pyIntCore : List Char → Option Int
  | [] => none
  | c :: cs =>
      if c = ('-') then (parseDigits cs).map (fun n => -(n : Int))
      else if c = ('+') then (parseDigits cs).map (fun n => (n : Int))
      else (parseDigits (c :: cs)).map (fun n => (n : Int))

/-- Python int(s): strip whitespace, then parse an optional sign and a
digit sequence; none models the ValueError raise. -/
def pyInt? (s : String) : Option Int :=
  pyIntCore (stripChars s.data)

/-! ## Decimal rendering (Python str(int)) -/

/-- Decimal digit character: 0 maps to the character 0 and so on. -/
def digitChar (d : Nat) : Char :=
  Char.ofNat (48 + d % 10)

/-- Fuel-driven digit expansion of a natural number, most significant
digit first.  Any fuel above the number itself is sufficient. -/
def natToStrAux : Nat → Nat → List Char
  | 0, _ => []
  | fuel + 1, n =>
      if n < 10 then [digitChar n]
      else natToStrAux fuel (n / 10) ++ [digitChar (n % 10)]

/-- Python str(n) for a natural number. -/
def natToStr (n : Nat) : String :=
  String.mk (natToStrAux (n + 1) n)

/-- Python str(i) for an integer: a leading hyphen for negatives. -/
def intToStr (i : Int) : String :=
  if i < 0 then String.mk (('-') :: (natToStr i.natAbs).data) else natToStr i.toNat

/-- Python str(sorted(list)) display for the sorted invalid-index list:
square brackets around comma-space separated decimal integers. -/
def pyIntListRepr (l : List Int) : String :=
  String.mk ((("[").data) ++ (String.intercalate (", ") (l.map intToStr)).data ++ (("]").data))

/-! ## Range-selector parser (handle_episode_range_input, lines 504-544)

The Python code splits the user text on commas, strips each fragment,
drops empty fragments, then processes every fragment: a fragment with a
hyphen is parsed as a start-end range (endpoints swapped when reversed),
any other fragment as a single integer.  Valid indices are collected into
a set; invalid fragments are recorded, annotated with the rejected
indices when the fragment itself parsed. -/

/-- Comma split, per-fragment strip, drop blank fragments. -/
def splitSegments (input : String) : List String :=
  ((pySplitComma (pyStrip input)).map pyStrip).filter (fun seg => seg ≠ ("" : String))

/-- Parse a single fragment to its integer index set, or none on a
ValueError: hyphen fragments as inclusive ranges with endpoint swap,
other fragments as single integers. -/
def parseSegment (seg : String) : Option (Finset Int) :=
  if (seg.data).contains ('-') then
    match splitFirstHyphen seg with
    | some (u, v) =>
        match pyInt? (pyStrip u), pyInt? (pyStrip v) with
        | some a, some b =>
            some (if a > b then Finset.Icc b a else Finset.Icc a b)
        | _, _ => none
    | none => none
  else
    (pyInt? seg).map (fun n => ({n} : Finset Int))

/-- Ascending enumeration of a multiset of integers, by insertion sort on
any representative list; kernel-reducible, unlike merge sort. -/
def sortMultiset (m : Multiset Int) : List Int :=
  Quot.lift (fun l => List.insertionSort (fun a b => a ≤ b) l)
    (fun l1 l2 h =>
      List.eq_of_perm_of_sorted
        (((List.perm_insertionSort _ l1).trans h).trans
          (List.perm_insertionSort _ l2).symm)
        (List.sorted_insertionSort (fun a b => a ≤ b) l1)
        (List.sorted_insertionSort (fun a b => a ≤ b) l2)) m

/-- Python sorted() on a set of integers: the ascending enumeration. -/
def sortedSelection (s : Finset Int) : List Int :=
  sortMultiset s.1

/-- The per-fragment note recorded when a parsed fragment carries indices
outside the valid set: the verbatim fragment followed by the sorted
rejected indices. -/
def invalidNote (seg : String) (rejected : Finset Int) : String :=
  seg ++ ("（无效集数：") ++ pyIntListRepr (sortedSelection rejected) ++ ("）")

/-- One loop iteration of the fragment loop: the contributed selection and
the recorded invalid-fragment entries. -/
def processSegment (valid : Finset Int) (seg : String) : Finset Int × List String :=
  match parseSegment seg with
  | none => (∅, [seg])
  | some s =>
      (s ∩ valid,
        if s \ valid = ∅ then [] else [invalidNote seg (s \ valid)])

/-- The fragment loop: fold the per-fragment results, unioning selections
and appending invalid-fragment records in order. -/
def parseSegments (valid : Finset Int) (segs : List String) : Finset Int × List String :=
  segs.foldl
    (fun acc seg =>
      let r := processSegment valid seg
      (acc.1 ∪ r.1, acc.2 ++ r.2))
    (∅, [])

/-- Full parse of the user text against the valid index set. -/
def parseRangeText (valid : Finset Int) (input : String) : Finset Int × List String :=
  parseSegments valid (splitSegments input)

/-- Outcome classification of the range-input step. -/
inductive RangeOutcome where
  | emptyInput : RangeOutcome
  | noUsable : List String → RangeOutcome
  | proceed : List Int → List String → RangeOutcome
deriving DecidableEq

/-- The three-way outcome of the parsing stage of the range-input step:
no fragments at all, fragments but an empty selection, or a nonempty
sorted selection. -/
def rangeOutcome (valid : Finset Int) (input : String) : RangeOutcome :=
  let segs := splitSegments input
  if segs.isEmpty then RangeOutcome.emptyInput
  else
    let r := parseSegments valid segs
    if r.1 = ∅ then RangeOutcome.noUsable r.2
    else RangeOutcome.proceed (sortedSelection r.1) r.2


/-! ## MD5 (hashlib.md5), used to mint short identifiers

The code derives an 8-character short identifier from the MD5 hex digest
of the string searchId + underscore + resultIndex.  The hash is embedded
below over byte lists (naturals below 256), with 32-bit words as naturals
reduced modulo 2 to the 32. -/

/-- Reduce modulo 2 to the 32. -/
def w32 (n : Nat) : Nat :=
  n % 4294967296

/-- Rotate a 32-bit word left by s places (0 < s < 32, x below 2 to
the 32): the shifted-out high bits return at the bottom. -/
def rotl32 (x s : Nat) : Nat :=
  w32 (x * 2 ^ s) + x / 2 ^ (32 - s)

/-- Round constants: floor of 2 to the 32 times the absolute sine of the
round number, per RFC 1321. -/
def md5K : List Nat :=
  [3614090360, 3905402710, 606105819, 3250441966, 4118548399, 1200080426, 2821735955, 4249261313,
   1770035416, 2336552879, 4294925233, 2304563134, 1804603682, 4254626195, 2792965006, 1236535329,
   4129170786, 3225465664, 643717713, 3921069994, 3593408605, 38016083, 3634488961, 3889429448,
   568446438, 3275163606, 4107603335, 1163531501, 2850285829, 4243563512, 1735328473, 2368359562,
   4294588738, 2272392833, 1839030562, 4259657740, 2763975236, 1272893353, 4139469664, 3200236656,
   681279174, 3936430074, 3572445317, 76029189, 3654602809, 3873151461, 530742520, 3299628645,
   4096336452, 1126891415, 2878612391, 4237533241, 1700485571, 2399980690, 4293915773, 2240044497,
   1873313359, 4264355552, 2734768916, 1309151649, 4149444226, 3174756917, 718787259, 3951481745]

/-- Per-round left-rotation amounts, per RFC 1321. -/
def md5S : List Nat :=
  [7, 12, 17, 22, 7, 12, 17, 22, 7, 12, 17, 22, 7, 12, 17, 22,
   5, 9, 14, 20, 5, 9, 14, 20, 5, 9, 14, 20, 5, 9, 14, 20,
   4, 11, 16, 23, 4, 11, 16, 23, 4, 11, 16, 23, 4, 11, 16, 23,
   6, 10, 15, 21, 6, 10, 15, 21, 6, 10, 15, 21, 6, 10, 15, 21]

/-- First-round mixing function; the 32-bit complement of x is
4294967295 - x. -/
def md5F (b c d : Nat) : Nat :=
  (b &&& c) ||| ((4294967295 - b) &&& d)

/-- Second-round mixing function. -/
def md5G (b c d : Nat) : Nat :=
  (d &&& b) ||| ((4294967295 - d) &&& c)

/-- Third-round mixing function. -/
def md5H (b c d : Nat) : Nat :=
  b ^^^ c ^^^ d

/-- Fourth-round mixing function. -/
def md5I (b c d : Nat) : Nat :=
  c ^^^ (b ||| (4294967295 - d))

/-- One of the 64 rounds applied to the running state, with m the
16 message words of the current chunk. -/
def md5Round (m : List Nat) (st : Nat × Nat × Nat × Nat) (i : Nat) : Nat × Nat × Nat × Nat :=
  let a := st.1
  let b := st.2.1
  let c := st.2.2.1
  let d := st.2.2.2
  let f :=
    if i < 16 then md5F b c d
    else if i < 32 then md5G b c d
    else if i < 48 then md5H b c d
    else md5I b c d
  let g :=
    if i < 16 then i
    else if i < 32 then (5 * i + 1) % 16
    else if i < 48 then (3 * i + 5) % 16
    else (7 * i) % 16
  let t := w32 (f + a + md5K.getD i 0 + m.getD g 0)
  (d, w32 (b + rotl32 t (md5S.getD i 0)), b, c)

/-- Process one 512-bit chunk: run the 64 rounds and add the result onto
the incoming state, componentwise modulo 2 to the 32. -/
def md5Chunk (st : Nat × Nat × Nat × Nat) (m : List Nat) : Nat × Nat × Nat × Nat :=
  let r := (List.range 64).foldl (md5Round m) st
  (w32 (st.1 + r.1), w32 (st.2.1 + r.2.1), w32 (st.2.2.1 + r.2.2.1), w32 (st.2.2.2 + r.2.2.2))

/-- Little-endian byte expansion of a natural, k bytes. -/
def leBytes (k n : Nat) : List Nat :=
  (List.range k).map (fun j => n / 256 ^ j % 256)

/-- MD5 padding: a 0x80 byte, zeros up to 56 modulo 64, then the bit
length as 8 little-endian bytes. -/
def md5Pad (msg : List Nat) : List Nat :=
  msg ++ [128] ++ List.replicate ((119 - msg.length % 64) % 64) 0 ++ leBytes 8 (8 * msg.length)

/-- Split a byte list into 64-byte chunks; the first argument is fuel and
any value at least the length is sufficient. -/
def chunksOf64 : Nat → List Nat → List (List Nat)
  | 0, _ => []
  | fuel + 1, l => if l.isEmpty then [] else l.take 64 :: chunksOf64 fuel (l.drop 64)

/-- The 16 little-endian 32-bit words of a 64-byte chunk. -/
def chunkWords (c : List Nat) : List Nat :=
  (List.range 16).map (fun j =>
    c.getD (4 * j) 0 + 256 * c.getD (4 * j + 1) 0 + 65536 * c.getD (4 * j + 2) 0 +
      16777216 * c.getD (4 * j + 3) 0)

/-- MD5 digest of a byte list: 16 bytes. -/
def md5Digest (msg : List Nat) : List Nat :=
  let padded := md5Pad msg
  let st :=
    (chunksOf64 padded.length padded).foldl (fun st c => md5Chunk st (chunkWords c))
      (1732584193, 4023233417, 2562383102, 271733878)
  leBytes 4 st.1 ++ leBytes 4 st.2.1 ++ leBytes 4 st.2.2.1 ++ leBytes 4 st.2.2.2

/-- Lowercase hex digit for the low four bits of a natural. -/
def hexChar (n : Nat) : Char :=
  Char.ofNat (if n % 16 < 10 then 48 + n % 16 else 87 + n % 16)

/-- Two lowercase hex characters of a byte, high nibble first, as in the
Python hexdigest rendering. -/
def byteHex (b : Nat) : List Char :=
  [hexChar (b / 16), hexChar b]

/-- hashlib hexdigest: the 32 lowercase hex characters of the digest. -/
def md5Hex (msg : List Nat) : String :=
  String.mk (((md5Digest msg).map byteHex).flatten)

/-- UTF-8 encoding of one code point, as Python str.encode(). -/
def charUtf8 (c : Char) : List Nat :=
  let n := c.toNat
  if n < 128 then [n]
  else if n < 2048 then [192 + n / 64, 128 + n % 64]
  else if n < 65536 then [224 + n / 4096, 128 + n / 64 % 64, 128 + n % 64]
  else [240 + n / 262144, 128 + n / 4096 % 64, 128 + n / 64 % 64, 128 + n % 64]

/-- Python str.encode(): the UTF-8 bytes of a string. -/
def utf8Bytes (s : String) : List Nat :=
  ((s.data.map charUtf8)).flatten


/-! ## Episodes, batches and the short-identifier cache
(handle_get_episode_callback, lines 180-219 and 319-325) -/

/-- A fetched episode record: the four fields the handler reads, each
optional because the remote payload is an untyped dict. -/
structure RawEpisode where
  provider : Option String
  episodeId : Option String
  title : Option String
  episodeIndex : Option Int
deriving DecidableEq

/-- The filter condition at line 184: all four keys present.  Presence is
all the code checks; values are not inspected. -/
def hasAllKeys (ep : RawEpisode) : Bool :=
  ep.provider.isSome && ep.episodeId.isSome && ep.title.isSome && ep.episodeIndex.isSome

/-- The episode filter applied to the fetched list before caching. -/
def filterEpisodes (l : List RawEpisode) : List RawEpisode :=
  l.filter hasAllKeys

/-- The retention condition claimed for the filter: all four fields
present and non-empty (the strings non-blank).  Stated for comparison
with hasAllKeys, which is what the code actually tests. -/
def specRetained (ep : RawEpisode) : Bool :=
  ep.provider.any (fun v => v ≠ ("" : String)) &&
    ep.episodeId.any (fun v => v ≠ ("" : String)) &&
    ep.title.any (fun v => v ≠ ("" : String)) &&
    ep.episodeIndex.isSome

/-- One cached batch, the value stored in episode_data_map. -/
structure BatchEntry where
  result_index : Int
  search_id : String
  total_episodes : Nat
  cached_episodes : List RawEpisode
deriving DecidableEq

/-- The per-user short-identifier cache episode_data_map; insertion at the
head models dict assignment, lookup finds the most recent binding. -/
abbrev EpisodeMap : Type :=
  List (String × BatchEntry)

/-- Minting at lines 204-205: the first 8 hex characters of the MD5 of
searchId, an underscore, and the decimal result index. -/
def mintShortId (search_id : String) (result_index : Int) : String :=
  pyTake 8 (md5Hex (utf8Bytes (search_id ++ ("_") ++ intToStr result_index)))

/-- Resolution of a short identifier against the cache. -/
def resolveShort (m : EpisodeMap) (id : String) : Option BatchEntry :=
  List.lookup id m

/-- Mint a short identifier and cache the filtered batch under it
(lines 204-214); returns the identifier and the updated cache. -/
def registerBatch (search_id : String) (result_index : Int) (eps : List RawEpisode)
    (m : EpisodeMap) : String × EpisodeMap :=
  let sid := mintShortId search_id result_index
  (sid, (sid, BatchEntry.mk result_index search_id eps.length eps) :: m)

/-! ## Callback payloads and interactive controls -/

/-- The transport ceiling on serialized control payloads (line 15). -/
def CALLBACK_DATA_MAX_LEN : Nat :=
  64

/-- The fixed page size (line 13). -/
def EPISODES_PER_PAGE : Nat :=
  10

/-- JSON string escaping for one character, as json.dumps with
ensure_ascii disabled: quote, backslash and control characters. -/
def escChar (c : Char) : List Char :=
  if c = ('"') then [('\\'), ('"')]
  else if c = ('\\') then [('\\'), ('\\')]
  else if c = ('\n') then [('\\'), ('n')]
  else if c = ('\t') then [('\\'), ('t')]
  else if c = ('\r') then [('\\'), ('r')]
  else if c = (Char.ofNat 8) then [('\\'), ('b')]
  else if c = (Char.ofNat 12) then [('\\'), ('f')]
  else if c.toNat < 32 then [('\\'), ('u'), ('0'), ('0'), hexChar (c.toNat / 16), hexChar c.toNat]
  else [c]

/-- A JSON string literal: escaped content between double quotes. -/
def jsonQuote (s : String) : String :=
  ("\"") ++ String.mk ((s.data.map escChar).flatten) ++ ("\"")

/-- The page-switch payload in the short vocabulary, serialized the way
json.dumps lays out a three-entry dict. -/
def mkSwitchPayload (d : String) (p : Int) : String :=
  ("\x7b\"a\": \"switch_episode_page\", \"d\": ") ++ jsonQuote d ++ (", \"p\": ") ++
    intToStr p ++ ("\x7d")

/-- The input-range payload in the short vocabulary. -/
def mkInputPayload (d : String) : String :=
  ("\x7b\"a\": \"start_input_range\", \"d\": ") ++ jsonQuote d ++ ("\x7d")

/-- The import-all payload; the code keeps the legacy long field names
here because handle_import_callback reads action and result_index. -/
def mkImportPayload (result_index : Int) : String :=
  ("\x7b\"action\": \"import_media\", \"result_index\": ") ++ intToStr result_index ++ ("\x7d")

/-- The retry payload used on the no-episodes path (lines 191-194), in
the legacy long vocabulary, carrying the decimal result index. -/
def retryPayload (result_index : Int) : String :=
  ("\x7b\"action\": \"get_media_episode\", \"data_id\": ") ++ jsonQuote (intToStr result_index) ++
    ("\x7d")

/-- A pagination control: serialize, and when the payload runs over the
ceiling re-serialize with the identifier cut to 17 characters
(lines 374-390).  Returns the payload and the identifier it embeds. -/
def switchControl (d : String) (p : Int) : String × String :=
  let c := mkSwitchPayload d p
  if CALLBACK_DATA_MAX_LEN < pyLen c then (mkSwitchPayload (pyTake 17 d) p, pyTake 17 d)
  else (c, d)

/-- The input-range control, with its own 29-character truncation
(lines 415-424). -/
def inputControl (d : String) : String × String :=
  let c := mkInputPayload d
  if CALLBACK_DATA_MAX_LEN < pyLen c then (mkInputPayload (pyTake 29 d), pyTake 29 d)
  else (c, d)

/-- Number of pages (line 350). -/
def totalPagesOf (total : Nat) : Nat :=
  (total + EPISODES_PER_PAGE - 1) / EPISODES_PER_PAGE

/-- Page clamp (line 351). -/
def clampPage (p : Int) (tp : Nat) : Int :=
  max 1 (min p (tp : Int))

/-- The episodes rendered for a requested page: clamp the page, then the
ten-element window of the cached list (lines 352-354). -/
def renderedPageEpisodes (eps : List RawEpisode) (total : Nat) (reqPage : Int) : List RawEpisode :=
  let page := clampPage reqPage (totalPagesOf total)
  (eps.drop (((page - 1) * (EPISODES_PER_PAGE : Int)).toNat)).take EPISODES_PER_PAGE

/-- The controls rendered with an episode page: optional previous and
next page, the input-range control, the import-all control.  Control
pairs carry the payload and the embedded identifier. -/
structure SwitchControls where
  prev : Option (String × String)
  next : Option (String × String)
  inputRange : String × String
  importAll : String
deriving DecidableEq

/-- Control layout of the page view (lines 366-434): a pagination row
only when there are several pages, previous only past page one, next only
before the last page, then the input-range and import-all rows. -/
def renderSwitchControls (total : Nat) (d : String) (ri : Int) (reqPage : Int) : SwitchControls :=
  let tp := totalPagesOf total
  let page := clampPage reqPage tp
  { prev := if 1 < tp ∧ 1 < page then some (switchControl d (page - 1)) else none
    next := if 1 < tp ∧ page < (tp : Int) then some (switchControl d (page + 1)) else none
    inputRange := inputControl d
    importAll := mkImportPayload ri }

/-- The payload-size condition of the three identifier-bearing controls. -/
def withinLimit (r : SwitchControls) : Bool :=
  (r.prev.all (fun pc => pyLen pc.1 ≤ CALLBACK_DATA_MAX_LEN)) &&
    (r.next.all (fun pc => pyLen pc.1 ≤ CALLBACK_DATA_MAX_LEN)) &&
    (pyLen r.inputRange.1 ≤ CALLBACK_DATA_MAX_LEN)

/-! ## First fetch (lines 180-315) -/

/-- Outcome of the first episode fetch once the remote data arrived. -/
inductive FetchRender where
  | noEpisodes : List String → FetchRender
  | page : String → SwitchControls → FetchRender
deriving DecidableEq

/-- First-fetch processing after a successful remote call: filter the
episodes; when nothing survives, reply with only the retry control and
cache nothing; otherwise mint the short identifier, cache the batch and
render page one. -/
def handleFirstFetch (search_id : String) (result_index : Int) (apiData : List RawEpisode)
    (m : EpisodeMap) : FetchRender × EpisodeMap :=
  let eps := filterEpisodes apiData
  if eps.isEmpty then (FetchRender.noEpisodes [retryPayload result_index], m)
  else
    let r := registerBatch search_id result_index eps m
    (FetchRender.page r.1 (renderSwitchControls eps.length r.1 result_index 1), r.2)

/-! ## The range-input conversation step (handle_episode_range_input) -/

/-- The request body sent to the edited-import endpoint. -/
structure ImportRequest where
  searchId : String
  result_index : Int
  episodes : List RawEpisode
deriving DecidableEq

/-- What the range-input step does: report stale data, re-prompt on empty
input, re-prompt when nothing usable was selected, or submit an import. -/
inductive RangeStep where
  | expired : RangeStep
  | promptEmpty : RangeStep
  | promptNoUsable : List String → RangeStep
  | submit : ImportRequest → RangeStep
deriving DecidableEq

/-- Conversation state returned by the handler: 1 re-enters the
range-input state (INPUT_EPISODE_RANGE), -1 ends the conversation. -/
def convStateOf : RangeStep → Int
  | RangeStep.promptEmpty => 1
  | RangeStep.promptNoUsable _ => 1
  | _ => -1

/-- The valid index set: the keys of the index-to-episode dict built at
line 505. -/
def indicesOf (eps : List RawEpisode) : Finset Int :=
  (eps.filterMap (fun ep => ep.episodeIndex)).toFinset

/-- The dict entry episode_index_map gets for an index: the last cached
episode carrying it, since later insertions overwrite earlier ones. -/
def lastWithIndex (eps : List RawEpisode) (i : Int) : Option RawEpisode :=
  (eps.filter (fun ep => ep.episodeIndex == some i)).getLast?

/-- The per-episode payload list assembled for the selected indices
(lines 558-566). -/
def buildImportList (eps : List RawEpisode) (sorted : List Int) : List RawEpisode :=
  sorted.filterMap (fun i => lastWithIndex eps i)

/-- The range-input handler on its inputs: the stored current_data_id,
the cache, the message text.  The cache is returned unchanged in every
branch; the handler only reads it. -/
def handleEpisodeRangeInput (dataId : Option String) (m : EpisodeMap) (input : String) :
    RangeStep × EpisodeMap :=
  match dataId with
  | none => (RangeStep.expired, m)
  | some id =>
      if id = ("" : String) then (RangeStep.expired, m)
      else
        match resolveShort m id with
        | none => (RangeStep.expired, m)
        | some entry =>
            if entry.cached_episodes.isEmpty then (RangeStep.expired, m)
            else
              match rangeOutcome (indicesOf entry.cached_episodes) input with
              | RangeOutcome.emptyInput => (RangeStep.promptEmpty, m)
              | RangeOutcome.noUsable inv => (RangeStep.promptNoUsable inv, m)
              | RangeOutcome.proceed sorted _ =>
                  (RangeStep.submit
                    (ImportRequest.mk entry.search_id entry.result_index
                      (buildImportList entry.cached_episodes sorted)), m)

/-! ## Callback-data parsing (lines 83-99) -/

/-- Python or on optional strings: the first operand wins unless it is
missing or empty (falsy). -/
def pyOrStr : Option String → Option String → Option String
  | some s, y => if s = ("" : String) then y else some s
  | none, y => y

/-- The fields a decoded callback dict may carry: short names a, d, p and
legacy long names action, data_id, current_page. -/
structure CallbackFields where
  a : Option String
  action : Option String
  d : Option String
  data_id : Option String
  p : Option Int
  current_page : Option Int

/-- Parsed action tag (line 87). -/
def parsedAction (f : CallbackFields) : Option String :=
  pyOrStr f.a f.action

/-- Parsed data identifier (line 88). -/
def parsedDataId (f : CallbackFields) : Option String :=
  pyOrStr f.d f.data_id

/-- Parsed page (line 89): the short field if present, else the long
field, else 1. -/
def parsedPage (f : CallbackFields) : Int :=
  f.p.getD (f.current_page.getD 1)

/-- A payload carrying only the short field names. -/
def shortFields (act id : String) (pg : Int) : CallbackFields :=
  CallbackFields.mk (some act) none (some id) none (some pg) none

/-- A payload carrying only the legacy long field names. -/
def longFields (act id : String) (pg : Int) : CallbackFields :=
  CallbackFields.mk none (some act) none (some id) none (some pg)

/-- Substring test helper over code-point lists. -/
def hasSubAux (n : List Char) : List Char → Bool
  | [] => n.isEmpty
  | c :: t => n.isPrefixOf (c :: t) || hasSubAux n t

/-- Substring test on strings, used to inspect which field names a
serialized payload mentions. -/
def hasSubstring (needle hay : String) : Bool :=
  hasSubAux needle.data hay.data

/-- The lowercase hex alphabet. -/
def hexAlphabet : List Char :=
  [('0'), ('1'), ('2'), ('3'), ('4'), ('5'), ('6'), ('7'),
   ('8'), ('9'), ('a'), ('b'), ('c'), ('d'), ('e'), ('f')]

/-- Hex alphabet test for short-identifier characters. -/
def isHexChar (c : Char) : Bool :=
  hexAlphabet.contains c

/-! ## Claim-side characterizations -/

/-- Head-of-list whitespace test: true on the empty list. -/
def headNonWs : List Char → Bool
  | [] => true
  | c :: _ => !isPySpace c

/-- The selection one fragment contributes, per the claimed description:
nothing when the fragment fails to parse, the valid subset otherwise. -/
def segContribution (valid : Finset Int) (seg : String) : Finset Int :=
  match parseSegment seg with
  | none => ∅
  | some s => s ∩ valid

/-- The invalid-fragment entries one fragment contributes, per the claimed
description: the fragment verbatim when it fails to parse, the annotated
fragment when it parsed but carried rejected indices, nothing otherwise. -/
def segReport (valid : Finset Int) (seg : String) : List String :=
  match parseSegment seg with
  | none => [seg]
  | some s => if s \ valid = ∅ then [] else [invalidNote seg (s \ valid)]

/-- Union of the per-fragment selection contributions. -/
def unionContributions (valid : Finset Int) (segs : List String) : Finset Int :=
  segs.foldr (fun seg acc => segContribution valid seg ∪ acc) ∅

/-- Concatenation of the per-fragment invalid reports, in fragment order. -/
def reportList (valid : Finset Int) (segs : List String) : List String :=
  segs.foldr (fun seg acc => segReport valid seg ++ acc) []

/-- A well-formed sample episode used in concrete instantiations. -/
def sampleEpisode : RawEpisode :=
  RawEpisode.mk (some ("p")) (some ("e")) (some ("t")) (some 1)

/-! # Theorems

First, auxiliary lemmas about the string primitives. -/

theorem strData_append (a b : String) : (a ++ b).data = a.data ++ b.data := by
  cases a
  cases b
  rfl

theorem strMk_data (s : String) : String.mk s.data = s := by
  cases s
  rfl

theorem pyLen_append (a b : String) : pyLen (a ++ b) = pyLen a + pyLen b := by
  simp [pyLen, strData_append]

theorem dropLeadWs_ws_lead :
    ∀ (w l : List Char), (∀ c ∈ w, isPySpace c = true) → dropLeadWs (w ++ l) = dropLeadWs l := by
  intro w
  induction w with
  | nil => intro l _; rfl
  | cons c cs ih =>
      intro l hw
      have hc : isPySpace c = true := hw c (List.mem_cons_self c cs)
      simp only [List.cons_append, dropLeadWs, hc, if_true]
      exact ih l (fun x hx => hw x (List.mem_cons_of_mem c hx))

theorem dropLeadWs_eq_self : ∀ l : List Char, headNonWs l = true → dropLeadWs l = l := by
  intro l h
  cases l with
  | nil => rfl
  | cons c cs =>
      simp only [headNonWs, Bool.not_eq_true'] at h
      simp [dropLeadWs, h]

theorem headNonWs_dropLeadWs : ∀ l : List Char, headNonWs (dropLeadWs l) = true := by
  intro l
  induction l with
  | nil => rfl
  | cons c cs ih =>
      by_cases hc : isPySpace c = true
      · simpa [dropLeadWs, hc] using ih
      · simp only [Bool.not_eq_true] at hc
        simp [dropLeadWs, hc, headNonWs]

theorem dropLeadWs_suffix : ∀ l : List Char, dropLeadWs l <:+ l := by
  intro l
  induction l with
  | nil => exact List.suffix_refl []
  | cons c cs ih =>
      by_cases hc : isPySpace c = true
      · simp only [dropLeadWs, hc, if_true]
        exact ih.trans (List.suffix_cons c cs)
      · simp only [Bool.not_eq_true] at hc
        simp [dropLeadWs, hc]

theorem headNonWs_of_leading :
    ∀ (p m : List Char), p <+: m → headNonWs m = true → headNonWs p = true := by
  intro p m hp hm
  cases p with
  | nil => rfl
  | cons a p2 =>
      obtain ⟨t, ht⟩ := hp
      cases m with
      | nil => cases ht
      | cons b m2 =>
          have hab : a = b := by
            have := congrArg (fun l => l.head?) ht
            simpa using this
          subst hab
          simpa [headNonWs] using hm

theorem headNonWs_append (x y : List Char) (hx : x ≠ []) : headNonWs (x ++ y) = headNonWs x := by
  cases x with
  | nil => exact absurd rfl hx
  | cons c cs => rfl

theorem stripChars_headNonWs (l : List Char) : headNonWs (stripChars l) = true := by
  have hm : headNonWs (dropLeadWs l) = true := headNonWs_dropLeadWs l
  have hsuf : dropLeadWs ((dropLeadWs l).reverse) <:+ (dropLeadWs l).reverse :=
    dropLeadWs_suffix _
  have hpre : (dropLeadWs ((dropLeadWs l).reverse)).reverse <+: dropLeadWs l := by
    have h2 : (dropLeadWs ((dropLeadWs l).reverse)).reverse <+:
        ((dropLeadWs l).reverse).reverse := List.reverse_prefix.mpr hsuf
    simpa using h2
  exact headNonWs_of_leading _ _ hpre hm

theorem stripChars_revHeadNonWs (l : List Char) : headNonWs (stripChars l).reverse = true := by
  simp only [stripChars, List.reverse_reverse]
  exact headNonWs_dropLeadWs _

theorem stripChars_eq_self (l : List Char) (h1 : headNonWs l = true)
    (h2 : headNonWs l.reverse = true) : stripChars l = l := by
  simp [stripChars, dropLeadWs_eq_self l h1, dropLeadWs_eq_self l.reverse h2]

theorem stripChars_idem (l : List Char) : stripChars (stripChars l) = stripChars l :=
  stripChars_eq_self _ (stripChars_headNonWs l) (stripChars_revHeadNonWs l)

theorem pyInt?_pyStrip (s : String) : pyInt? (pyStrip s) = pyInt? s := by
  simp [pyInt?, pyStrip, stripChars_idem]

theorem stripChars_pad (w1 x w2 : List Char) (hx : x ≠ [])
    (hw1 : ∀ c ∈ w1, isPySpace c = true) (hw2 : ∀ c ∈ w2, isPySpace c = true)
    (h1 : headNonWs x = true) (h2 : headNonWs x.reverse = true) :
    stripChars (w1 ++ x ++ w2) = x := by
  have step1 : dropLeadWs (w1 ++ (x ++ w2)) = x ++ w2 := by
    rw [dropLeadWs_ws_lead w1 (x ++ w2) hw1]
    exact dropLeadWs_eq_self _ ((headNonWs_append x w2 hx).trans h1)
  have step2 : dropLeadWs ((x ++ w2).reverse) = x.reverse := by
    rw [List.reverse_append, dropLeadWs_ws_lead w2.reverse x.reverse
      (fun c hc => hw2 c (List.mem_reverse.mp hc))]
    exact dropLeadWs_eq_self _ h2
  unfold stripChars
  rw [List.append_assoc, step1, step2, List.reverse_reverse]

theorem stripChars_eq_self_of_nonspace (l : List Char)
    (h : ∀ c ∈ l, isPySpace c = false) : stripChars l = l := by
  apply stripChars_eq_self
  · cases l with
    | nil => rfl
    | cons c cs => simp [headNonWs, h c (List.mem_cons_self c cs)]
  · cases hr : l.reverse with
    | nil => rfl
    | cons c cs =>
        have hc : c ∈ l := by
          rw [← List.mem_reverse, hr]
          exact List.mem_cons_self c cs
        simp [headNonWs, h c hc]

/-! Decimal digits and the round trip between intToStr and pyInt. -/

theorem digitChar_isDigit (d : Nat) : (digitChar d).isDigit = true := by
  have h : d % 10 < 10 := Nat.mod_lt d (by norm_num)
  unfold digitChar
  obtain ⟨k, hk, hmod⟩ : ∃ k, k < 10 ∧ d % 10 = k := ⟨d % 10, h, rfl⟩
  rw [hmod]
  interval_cases k <;> decide

theorem digitChar_toNat (d : Nat) : (digitChar d).toNat = 48 + d % 10 := by
  have h : d % 10 < 10 := Nat.mod_lt d (by norm_num)
  unfold digitChar
  obtain ⟨k, hk, hmod⟩ : ∃ k, k < 10 ∧ d % 10 = k := ⟨d % 10, h, rfl⟩
  rw [hmod]
  interval_cases k <;> decide

theorem digit_ne (c x : Char) (h : c.isDigit = true) (hx : x.isDigit = false) : c ≠ x := by
  intro e
  subst e
  rw [h] at hx
  cases hx

theorem not_space_of_digit (c : Char) (h : c.isDigit = true) : isPySpace c = false := by
  simp only [isPySpace, Bool.or_eq_false_iff, decide_eq_false_iff_not]
  refine ⟨⟨⟨⟨⟨?_, ?_⟩, ?_⟩, ?_⟩, ?_⟩, ?_⟩ <;> rintro rfl <;> exact absurd h (by decide)

theorem natToStrAux_digits :
    ∀ (fuel n : Nat) (c : Char), c ∈ natToStrAux fuel n → c.isDigit = true := by
  intro fuel
  induction fuel with
  | zero => intro n c hc; cases hc
  | succ f ih =>
      intro n c hc
      by_cases hn : n < 10
      · simp only [natToStrAux, hn, if_true, List.mem_singleton] at hc
        exact hc ▸ digitChar_isDigit n
      · simp only [natToStrAux, hn, if_false, List.mem_append, List.mem_singleton] at hc
        rcases hc with hc | hc
        · exact ih _ c hc
        · exact hc ▸ digitChar_isDigit _

theorem natToStrAux_ne_nil : ∀ (fuel n : Nat), fuel ≠ 0 → natToStrAux fuel n ≠ [] := by
  intro fuel n hf
  cases fuel with
  | zero => exact absurd rfl hf
  | succ f =>
      by_cases hn : n < 10
      · simp [natToStrAux, hn]
      · simp [natToStrAux, hn]

theorem foldl_digitVal_natToStrAux :
    ∀ (n fuel acc : Nat), n < fuel →
      (natToStrAux fuel n).foldl (fun m c => m * 10 + (c.toNat - 48)) acc =
        acc * 10 ^ (natToStrAux fuel n).length + n := by
  intro n
  induction n using Nat.strong_induction_on with
  | _ n ih =>
      intro fuel acc hfuel
      cases fuel with
      | zero => omega
      | succ f =>
          by_cases hn : n < 10
          · simp only [natToStrAux, hn, if_true, List.foldl_cons, List.foldl_nil,
              List.length_singleton, pow_one]
            rw [digitChar_toNat n]
            omega
          · simp only [natToStrAux, hn, if_false, List.foldl_append, List.foldl_cons,
              List.foldl_nil, List.length_append, List.length_singleton]
            have hdiv : n / 10 < n := Nat.div_lt_self (by omega) (by omega)
            have hdf : n / 10 < f := by omega
            rw [ih (n / 10) hdiv f acc hdf, digitChar_toNat (n % 10)]
            have h48 : 48 + n % 10 % 10 - 48 = n % 10 := by omega
            rw [h48, pow_succ, ← mul_assoc]
            omega

theorem digitsCore_all :
    ∀ (l : List Char) (acc : Nat), (∀ c ∈ l, c.isDigit = true) →
      digitsCore acc l = some (l.foldl (fun m c => m * 10 + (c.toNat - 48)) acc) := by
  intro l
  induction l with
  | nil => intro acc _; rfl
  | cons c cs ih =>
      intro acc h
      have hc : c.isDigit = true := h c (List.mem_cons_self c cs)
      rw [digitsCore.eq_def]
      simp only [hc, if_true, List.foldl_cons]
      exact ih _ (fun x hx => h x (List.mem_cons_of_mem c hx))

theorem natToStr_data (n : Nat) : (natToStr n).data = natToStrAux (n + 1) n :=
  rfl

theorem parseDigits_natToStr (n : Nat) : parseDigits (natToStr n).data = some n := by
  have hne : natToStrAux (n + 1) n ≠ [] := natToStrAux_ne_nil (n + 1) n (by omega)
  have hdig : ∀ c ∈ natToStrAux (n + 1) n, c.isDigit = true := natToStrAux_digits (n + 1) n
  have hfold := foldl_digitVal_natToStrAux n (n + 1) 0 (by omega)
  rw [natToStr_data]
  cases hl : natToStrAux (n + 1) n with
  | nil => exact absurd hl hne
  | cons c cs =>
      have hc : c.isDigit = true := hdig c (by rw [hl]; exact List.mem_cons_self c cs)
      rw [parseDigits.eq_def]
      simp only [hc, if_true]
      rw [digitsCore_all cs (c.toNat - 48)
        (fun x hx => hdig x (by rw [hl]; exact List.mem_cons_of_mem c hx))]
      rw [hl] at hfold
      simp only [List.foldl_cons, Nat.zero_mul, Nat.zero_add] at hfold
      rw [hfold]

theorem intToStr_data_neg (i : Int) (hi : i < 0) :
    (intToStr i).data = ('-') :: (natToStr i.natAbs).data := by
  unfold intToStr
  rw [if_pos hi]

theorem intToStr_data_nonneg (i : Int) (hi : ¬ i < 0) :
    (intToStr i).data = natToStrAux (i.toNat + 1) i.toNat := by
  unfold intToStr
  rw [if_neg hi]
  rfl

theorem intToStr_chars (i : Int) :
    ∀ c ∈ (intToStr i).data, c.isDigit = true ∨ c = ('-') := by
  intro c hc
  by_cases hi : i < 0
  · rw [intToStr_data_neg i hi, List.mem_cons] at hc
    rcases hc with hc | hc
    · right; exact hc
    · left; exact natToStrAux_digits _ _ c hc
  · rw [intToStr_data_nonneg i hi] at hc
    left
    exact natToStrAux_digits _ _ c hc

theorem intToStr_nonspace (i : Int) : ∀ c ∈ (intToStr i).data, isPySpace c = false := by
  intro c hc
  rcases intToStr_chars i c hc with h | h
  · exact not_space_of_digit c h
  · subst h; decide

theorem intToStr_ne_nil (i : Int) : (intToStr i).data ≠ [] := by
  by_cases hi : i < 0
  · rw [intToStr_data_neg i hi]
    exact List.cons_ne_nil _ _
  · rw [intToStr_data_nonneg i hi]
    exact natToStrAux_ne_nil _ _ (by omega)

theorem pyIntCore_intToStr (i : Int) : pyIntCore (intToStr i).data = some i := by
  by_cases hi : i < 0
  · rw [intToStr_data_neg i hi, pyIntCore.eq_def]
    simp only [if_pos rfl, parseDigits_natToStr]
    simp
    rw [abs_of_neg hi, neg_neg]
  · rw [intToStr_data_nonneg i hi, ← natToStr_data]
    have hne : (natToStr i.toNat).data ≠ [] := natToStrAux_ne_nil _ _ (by omega)
    have hpd := parseDigits_natToStr i.toNat
    cases hl : (natToStr i.toNat).data with
    | nil => exact absurd hl hne
    | cons c cs =>
        have hc : c.isDigit = true := by
          apply natToStrAux_digits (i.toNat + 1) i.toNat
          rw [← natToStr_data, hl]
          exact List.mem_cons_self c cs
        have hne1 : c ≠ ('-') := digit_ne c _ hc (by decide)
        have hne2 : c ≠ ('+') := digit_ne c _ hc (by decide)
        rw [hl] at hpd
        rw [pyIntCore.eq_def]
        simp only [hne1, hne2, if_false, hpd]
        have habs : ((i.toNat : Nat) : Int) = i := by omega
        simp [habs]

theorem pyInt?_intToStr (i : Int) : pyInt? (intToStr i) = some i := by
  unfold pyInt?
  rw [stripChars_eq_self_of_nonspace _ (intToStr_nonspace i)]
  exact pyIntCore_intToStr i

/-! Per-fragment and fold structure of the range parser. -/

theorem processSegment_eq (valid : Finset Int) (seg : String) :
    processSegment valid seg = (segContribution valid seg, segReport valid seg) := by
  cases h : parseSegment seg <;>
    simp [processSegment, segContribution, segReport, h]

theorem parseSegments_foldl (valid : Finset Int) :
    ∀ (segs : List String) (S : Finset Int) (L : List String),
      segs.foldl
        (fun acc seg =>
          let r := processSegment valid seg
          (acc.1 ∪ r.1, acc.2 ++ r.2)) (S, L) =
      (S ∪ unionContributions valid segs, L ++ reportList valid segs) := by
  intro segs
  induction segs with
  | nil => intro S L; simp [unionContributions, reportList]
  | cons seg segs ih =>
      intro S L
      rw [List.foldl_cons]
      refine (ih (S ∪ (processSegment valid seg).1) (L ++ (processSegment valid seg).2)).trans ?_
      rw [processSegment_eq]
      simp only [unionContributions, reportList, List.foldr_cons]
      rw [Finset.union_assoc, List.append_assoc]

theorem parseSegments_eq (valid : Finset Int) (segs : List String) :
    parseSegments valid segs = (unionContributions valid segs, reportList valid segs) := by
  unfold parseSegments
  rw [parseSegments_foldl valid segs ∅ []]
  simp

theorem mem_unionContributions (valid : Finset Int) (segs : List String) (a : Int) :
    a ∈ unionContributions valid segs ↔ ∃ seg ∈ segs, a ∈ segContribution valid seg := by
  induction segs with
  | nil => simp [unionContributions]
  | cons seg segs ih =>
      simp only [unionContributions, List.foldr_cons, Finset.mem_union]
      rw [show segs.foldr (fun seg acc => segContribution valid seg ∪ acc) ∅ =
        unionContributions valid segs from rfl, ih]
      simp [List.mem_cons, or_and_right, exists_or]

theorem unionContributions_perm (valid : Finset Int) (s1 s2 : List String)
    (h : s1.Perm s2) : unionContributions valid s1 = unionContributions valid s2 := by
  ext a
  rw [mem_unionContributions, mem_unionContributions]
  constructor
  · rintro ⟨seg, hs, ha⟩
    exact ⟨seg, (h.mem_iff).mp hs, ha⟩
  · rintro ⟨seg, hs, ha⟩
    exact ⟨seg, (h.mem_iff).mpr hs, ha⟩

/-! Properties of the ascending presentation. -/

theorem sortMultiset_sorted (m : Multiset Int) : (sortMultiset m).Sorted (· ≤ ·) :=
  Quot.inductionOn m fun l => List.sorted_insertionSort (fun a b => a ≤ b) l

theorem sortMultiset_coe (m : Multiset Int) : ((sortMultiset m : List Int) : Multiset Int) = m :=
  Quot.inductionOn m fun l => Quot.sound (List.perm_insertionSort (fun a b => a ≤ b) l)

theorem mem_sortedSelection (s : Finset Int) (a : Int) :
    a ∈ sortedSelection s ↔ a ∈ s := by
  unfold sortedSelection
  rw [← Multiset.mem_coe, sortMultiset_coe]
  exact Iff.rfl

theorem sortedSelection_nodup (s : Finset Int) : (sortedSelection s).Nodup := by
  have h : ((sortedSelection s : List Int) : Multiset Int).Nodup := by
    unfold sortedSelection
    rw [sortMultiset_coe]
    exact s.nodup
  exact Multiset.coe_nodup.mp h

theorem sortedSelection_sorted_lt (s : Finset Int) : (sortedSelection s).Sorted (· < ·) := by
  have h1 : (sortedSelection s).Pairwise (· ≤ ·) := sortMultiset_sorted s.1
  have h2 : (sortedSelection s).Pairwise (· ≠ ·) := sortedSelection_nodup s
  exact (h1.and h2).imp (fun h => lt_of_le_of_ne h.1 h.2)

theorem sortedSelection_toFinset (s : Finset Int) : (sortedSelection s).toFinset = s := by
  ext a
  rw [List.mem_toFinset, mem_sortedSelection]

/-! Character classes, comma splitting and hyphen splitting. -/

theorem space_cases (c : Char) (h : isPySpace c = true) :
    c = (' ') ∨ c = ('\t') ∨ c = ('\n') ∨ c = ('\r') ∨ c = (Char.ofNat 11) ∨ c = (Char.ofNat 12) := by
  simpa [isPySpace, decide_eq_true_eq, or_assoc] using h

theorem space_ne_comma (c : Char) (h : isPySpace c = true) : c ≠ (',') := by
  rcases space_cases c h with rfl | rfl | rfl | rfl | rfl | rfl <;> decide

theorem space_ne_hyphen (c : Char) (h : isPySpace c = true) : c ≠ ('-') := by
  rcases space_cases c h with rfl | rfl | rfl | rfl | rfl | rfl <;> decide

theorem headNonWs_of_nonspace (l : List Char) (h : ∀ c ∈ l, isPySpace c = false) :
    headNonWs l = true := by
  cases l with
  | nil => rfl
  | cons c cs => simp [headNonWs, h c (List.mem_cons_self c cs)]

theorem mem_stripChars (l : List Char) (c : Char) (h : c ∈ stripChars l) : c ∈ l := by
  unfold stripChars at h
  rw [List.mem_reverse] at h
  have h2 : c ∈ (dropLeadWs l).reverse := (dropLeadWs_suffix _).subset h
  rw [List.mem_reverse] at h2
  exact (dropLeadWs_suffix _).subset h2

theorem strMk_ne_empty (l : List Char) (h : l ≠ []) : String.mk l ≠ ("" : String) :=
  fun e => h (congrArg String.data e)

theorem pyStrip_idem (s : String) : pyStrip (pyStrip s) = pyStrip s := by
  simp [pyStrip, stripChars_idem]

theorem splitCommaAux_no_comma :
    ∀ (l acc : List Char), (∀ c ∈ l, c ≠ (',')) → splitCommaAux l acc = [acc.reverse ++ l] := by
  intro l
  induction l with
  | nil => intro acc _; simp [splitCommaAux]
  | cons c cs ih =>
      intro acc h
      have hc : c ≠ (',') := h c (List.mem_cons_self c cs)
      rw [splitCommaAux.eq_def]
      simp only [hc, if_false]
      rw [ih (c :: acc) (fun x hx => h x (List.mem_cons_of_mem c hx))]
      simp

theorem pySplitComma_single (s : String) (h : ∀ c ∈ s.data, c ≠ (',')) :
    pySplitComma s = [s] := by
  unfold pySplitComma
  rw [splitCommaAux_no_comma s.data [] h]
  simp [strMk_data]

theorem splitSegments_eq_single (input : String)
    (hc : ∀ c ∈ stripChars input.data, c ≠ (','))
    (hne : stripChars input.data ≠ []) :
    splitSegments input = [pyStrip input] := by
  unfold splitSegments
  rw [pySplitComma_single (pyStrip input) hc]
  have hne2 : pyStrip input ≠ ("" : String) := strMk_ne_empty _ hne
  simp [pyStrip_idem, List.filter, hne2]

theorem splitFirstHyphenAux_found :
    ∀ (u : List Char) (v acc : List Char), ('-') ∉ u →
      splitFirstHyphenAux (u ++ ('-') :: v) acc = some (acc.reverse ++ u, v) := by
  intro u
  induction u with
  | nil => intro v acc _; simp [splitFirstHyphenAux]
  | cons c cs ih =>
      intro v acc hu
      have hc : c ≠ ('-') := fun e => hu (e ▸ List.mem_cons_self c cs)
      rw [List.cons_append, splitFirstHyphenAux.eq_def]
      simp only [hc, if_false]
      rw [ih v (c :: acc) (fun hx => hu (List.mem_cons_of_mem c hx))]
      simp

theorem splitFirstHyphen_eq (u v : List Char) (hu : ('-') ∉ u) :
    splitFirstHyphen (String.mk (u ++ ('-') :: v)) = some (String.mk u, String.mk v) := by
  unfold splitFirstHyphen
  rw [show (String.mk (u ++ ('-') :: v)).data = u ++ ('-') :: v from rfl]
  rw [splitFirstHyphenAux_found u v [] hu]
  simp

theorem parseSegment_hyphen (u v : List Char) (hu : ('-') ∉ u) (a b : Int)
    (ha : pyIntCore (stripChars u) = some a) (hb : pyIntCore (stripChars v) = some b) :
    parseSegment (String.mk (u ++ ('-') :: v)) =
      some (if a > b then Finset.Icc b a else Finset.Icc a b) := by
  have hcont : (String.mk (u ++ ('-') :: v)).data.contains ('-') = true := by
    rw [show (String.mk (u ++ ('-') :: v)).data = u ++ ('-') :: v from rfl]
    exact List.elem_eq_true_of_mem (by simp)
  unfold parseSegment
  rw [hcont]
  simp only [if_true, splitFirstHyphen_eq u v hu]
  have ha2 : pyInt? (pyStrip (String.mk u)) = some a := by
    rw [pyInt?_pyStrip]
    exact ha
  have hb2 : pyInt? (pyStrip (String.mk v)) = some b := by
    rw [pyInt?_pyStrip]
    exact hb
  rw [ha2, hb2]

theorem parseSegment_no_hyphen (seg : String) (h : ('-') ∉ seg.data) :
    parseSegment seg = (pyInt? seg).map (fun n => ({n} : Finset Int)) := by
  have hcont : seg.data.contains ('-') = false := by
    rw [Bool.eq_false_iff]
    intro hcon
    exact h (List.mem_of_elem_eq_true hcon)
  unfold parseSegment
  rw [hcont]
  simp

theorem ite_Icc_minmax (a b : Int) :
    (if a > b then Finset.Icc b a else Finset.Icc a b) = Finset.Icc (min a b) (max a b) := by
  by_cases h : a > b
  · rw [if_pos h, min_eq_right h.le, max_eq_left h.le]
  · rw [if_neg h, min_eq_left (not_lt.mp h), max_eq_right (not_lt.mp h)]

theorem parseSegments_single (valid : Finset Int) (seg : String) :
    parseSegments valid [seg] = (segContribution valid seg, segReport valid seg) := by
  rw [parseSegments_eq]
  simp [unionContributions, reportList]

/-! Whitespace-padded hyphen fragments. -/

theorem headNonWs_reverse_last (z y : List Char) (hy : y ≠ [])
    (h : ∀ c ∈ y, isPySpace c = false) : headNonWs ((z ++ y).reverse) = true := by
  rw [List.reverse_append, headNonWs_append _ _ (by simpa using hy)]
  exact headNonWs_of_nonspace _ (fun c hc => h c (List.mem_reverse.mp hc))

theorem parseSegment_leading_hyphen (t : List Char) :
    parseSegment (String.mk (('-') :: t)) = none := by
  have hsplit := splitFirstHyphen_eq [] t (by simp)
  have hcont : (String.mk (('-') :: t)).data.contains ('-') = true :=
    List.elem_eq_true_of_mem (List.mem_cons_self _ _)
  unfold parseSegment
  rw [hcont]
  simp only [if_true]
  rw [show String.mk ([] ++ ('-') :: t) = String.mk (('-') :: t) from rfl] at hsplit
  rw [hsplit]
  show (match pyInt? (pyStrip (String.mk ([] : List Char))), pyInt? (pyStrip (String.mk t)) with
    | some a, some b => some (if a > b then Finset.Icc b a else Finset.Icc a b)
    | _, _ => none) = none
  have hnone : pyInt? (pyStrip (String.mk ([] : List Char))) = none := rfl
  rw [hnone]

theorem paddedFragment (a b : Int) (w1 w2 w3 w4 : String)
    (h1 : ∀ c ∈ w1.data, isPySpace c = true) (h2 : ∀ c ∈ w2.data, isPySpace c = true)
    (h3 : ∀ c ∈ w3.data, isPySpace c = true) (h4 : ∀ c ∈ w4.data, isPySpace c = true) :
    splitSegments (w1 ++ intToStr a ++ w2 ++ ("-") ++ w3 ++ intToStr b ++ w4) =
      [String.mk ((intToStr a).data ++ w2.data ++ ('-') :: (w3.data ++ (intToStr b).data))] := by
  have hAne : (intToStr a).data ≠ [] := intToStr_ne_nil a
  have hBne : (intToStr b).data ≠ [] := intToStr_ne_nil b
  have hxne : (intToStr a).data ++ w2.data ++ ('-') :: (w3.data ++ (intToStr b).data) ≠ [] := by
    intro e
    rw [List.append_assoc, List.append_eq_nil] at e
    exact hAne e.1
  have hx1 : headNonWs ((intToStr a).data ++ w2.data ++ ('-') :: (w3.data ++ (intToStr b).data)) =
      true := by
    rw [List.append_assoc, headNonWs_append _ _ hAne]
    exact headNonWs_of_nonspace _ (intToStr_nonspace a)
  have hshape : (intToStr a).data ++ w2.data ++ ('-') :: (w3.data ++ (intToStr b).data) =
      ((intToStr a).data ++ w2.data ++ ('-') :: w3.data) ++ (intToStr b).data := by
    simp [List.append_assoc]
  have hx2 : headNonWs (((intToStr a).data ++ w2.data ++
      ('-') :: (w3.data ++ (intToStr b).data)).reverse) = true := by
    rw [hshape]
    exact headNonWs_reverse_last _ _ hBne (intToStr_nonspace b)
  have hdata : (w1 ++ intToStr a ++ w2 ++ ("-") ++ w3 ++ intToStr b ++ w4).data =
      w1.data ++ ((intToStr a).data ++ w2.data ++ ('-') :: (w3.data ++ (intToStr b).data)) ++
        w4.data := by
    simp [strData_append, List.append_assoc]
  have hstrip : stripChars (w1 ++ intToStr a ++ w2 ++ ("-") ++ w3 ++ intToStr b ++ w4).data =
      (intToStr a).data ++ w2.data ++ ('-') :: (w3.data ++ (intToStr b).data) := by
    rw [hdata]
    exact stripChars_pad _ _ _ hxne h1 h4 hx1 hx2
  have hnc : ∀ c ∈ (intToStr a).data ++ w2.data ++ ('-') :: (w3.data ++ (intToStr b).data),
      c ≠ (',') := by
    intro c hc
    rw [List.append_assoc, List.mem_append] at hc
    rcases hc with hc | hc
    · rcases intToStr_chars a c hc with hd | hd
      · exact digit_ne c _ hd (by decide)
      · subst hd; decide
    · rw [List.mem_append] at hc
      rcases hc with hc | hc
      · exact space_ne_comma c (h2 c hc)
      · rw [List.mem_cons] at hc
        rcases hc with hc | hc
        · subst hc; decide
        · rw [List.mem_append] at hc
          rcases hc with hc | hc
          · exact space_ne_comma c (h3 c hc)
          · rcases intToStr_chars b c hc with hd | hd
            · exact digit_ne c _ hd (by decide)
            · subst hd; decide
  have hsingle := splitSegments_eq_single
    (w1 ++ intToStr a ++ w2 ++ ("-") ++ w3 ++ intToStr b ++ w4)
    (by rw [hstrip]; exact hnc) (by rw [hstrip]; exact hxne)
  rw [hsingle]
  congr 1
  show String.mk (stripChars (w1 ++ intToStr a ++ w2 ++ ("-") ++ w3 ++ intToStr b ++ w4).data) = _
  rw [hstrip]

theorem strExt (s1 s2 : String) (h : s1.data = s2.data) : s1 = s2 := by
  have h2 := congrArg String.mk h
  rwa [strMk_data, strMk_data] at h2

theorem stripChars_trailing (x w : List Char) (hxne : x ≠ [])
    (hw : ∀ c ∈ w, isPySpace c = true) (h1 : headNonWs x = true)
    (h2 : headNonWs x.reverse = true) : stripChars (x ++ w) = x := by
  have h := stripChars_pad [] x w hxne (fun c hc => absurd hc (List.not_mem_nil c)) hw h1 h2
  simpa using h

theorem stripChars_leading (w x : List Char) (hxne : x ≠ [])
    (hw : ∀ c ∈ w, isPySpace c = true) (h1 : headNonWs x = true)
    (h2 : headNonWs x.reverse = true) : stripChars (w ++ x) = x := by
  have h := stripChars_pad w x [] hxne hw (fun c hc => absurd hc (List.not_mem_nil c)) h1 h2
  simpa using h

theorem intToStr_headNonWs (i : Int) : headNonWs (intToStr i).data = true :=
  headNonWs_of_nonspace _ (intToStr_nonspace i)

theorem intToStr_revHeadNonWs (i : Int) : headNonWs (intToStr i).data.reverse = true :=
  headNonWs_of_nonspace _ (fun c hc => intToStr_nonspace i c (List.mem_reverse.mp hc))

theorem intToStr_no_hyphen_of_nonneg (a : Int) (ha : ¬ a < 0) : ('-') ∉ (intToStr a).data := by
  intro hm
  rw [intToStr_data_nonneg a ha] at hm
  exact digit_ne _ _ (natToStrAux_digits _ _ _ hm) (by decide) rfl

theorem segContribution_congr (valid : Finset Int) (s1 s2 : String)
    (h : parseSegment s1 = parseSegment s2) :
    segContribution valid s1 = segContribution valid s2 := by
  unfold segContribution
  rw [h]

theorem parseSegment_padded (a b : Int) (w2 w3 : String)
    (h2 : ∀ c ∈ w2.data, isPySpace c = true) (h3 : ∀ c ∈ w3.data, isPySpace c = true) :
    parseSegment (String.mk ((intToStr a).data ++ w2.data ++
        ('-') :: (w3.data ++ (intToStr b).data))) =
      parseSegment (String.mk ((intToStr a).data ++ ('-') :: (intToStr b).data)) := by
  by_cases ha : a < 0
  · rw [intToStr_data_neg a ha]
    rw [show (('-') :: (natToStr a.natAbs).data) ++ w2.data ++
        ('-') :: (w3.data ++ (intToStr b).data) =
        ('-') :: ((natToStr a.natAbs).data ++ w2.data ++
          ('-') :: (w3.data ++ (intToStr b).data)) from by simp]
    rw [show (('-') :: (natToStr a.natAbs).data) ++ ('-') :: (intToStr b).data =
        ('-') :: ((natToStr a.natAbs).data ++ ('-') :: (intToStr b).data) from by simp]
    rw [parseSegment_leading_hyphen, parseSegment_leading_hyphen]
  · have hAnoH : ('-') ∉ (intToStr a).data := intToStr_no_hyphen_of_nonneg a ha
    have huno : ('-') ∉ (intToStr a).data ++ w2.data := by
      intro hm
      rcases List.mem_append.mp hm with hm | hm
      · exact hAnoH hm
      · exact space_ne_hyphen _ (h2 _ hm) rfl
    have hun2 : pyIntCore (stripChars ((intToStr a).data ++ w2.data)) = some a := by
      rw [stripChars_trailing _ _ (intToStr_ne_nil a) h2 (intToStr_headNonWs a)
        (intToStr_revHeadNonWs a)]
      exact pyIntCore_intToStr a
    have hun3 : pyIntCore (stripChars (w3.data ++ (intToStr b).data)) = some b := by
      rw [stripChars_leading _ _ (intToStr_ne_nil b) h3 (intToStr_headNonWs b)
        (intToStr_revHeadNonWs b)]
      exact pyIntCore_intToStr b
    have hun4 : pyIntCore (stripChars (intToStr a).data) = some a := by
      rw [stripChars_eq_self_of_nonspace _ (intToStr_nonspace a)]
      exact pyIntCore_intToStr a
    have hun5 : pyIntCore (stripChars (intToStr b).data) = some b := by
      rw [stripChars_eq_self_of_nonspace _ (intToStr_nonspace b)]
      exact pyIntCore_intToStr b
    rw [show (intToStr a).data ++ w2.data ++ ('-') :: (w3.data ++ (intToStr b).data) =
        ((intToStr a).data ++ w2.data) ++ ('-') :: (w3.data ++ (intToStr b).data) from rfl]
    rw [parseSegment_hyphen _ _ huno a b hun2 hun3]
    rw [parseSegment_hyphen _ _ hAnoH a b hun4 hun5]

theorem parseSegment_append_hyphen (s t : String) (a b : Int) (hs : ('-') ∉ s.data)
    (ha : pyInt? s = some a) (hb : pyInt? t = some b) :
    parseSegment (s ++ ("-") ++ t) = some (Finset.Icc (min a b) (max a b)) := by
  have hdata : (s ++ ("-") ++ t).data = s.data ++ ('-') :: t.data := by
    simp [strData_append]
  have heq : String.mk (s.data ++ ('-') :: t.data) = s ++ ("-") ++ t := by
    rw [← hdata, strMk_data]
  rw [← heq, parseSegment_hyphen s.data t.data hs a b ha hb, ite_Icc_minmax]

/-! ## Claim theorems for the range parser -/

/-- C1: the range parser processes each comma-separated fragment
independently: the final result is the fold of per-fragment
contributions, where a fragment that fails integer parsing entirely is
recorded verbatim and contributes nothing, and a fragment that parses but
carries indices outside the valid set contributes its valid subset and is
recorded annotated with exactly the rejected indices. -/
theorem C1_fragment_independence (valid : Finset Int) (input seg : String) :
    parseRangeText valid input =
      (unionContributions valid (splitSegments input), reportList valid (splitSegments input))
    ∧ processSegment valid seg = (segContribution valid seg, segReport valid seg) :=
  ⟨parseSegments_eq valid (splitSegments input), processSegment_eq valid seg⟩

/-- C2 counterexample: the claim asserts that for every valid-index set
the parse of 5-1 and of 1-5 agree on selection and invalid-fragment
report; with the empty valid set the selections agree but the recorded
invalid fragments embed the verbatim fragment text, so the reports
differ. -/
theorem C2_counterexample : parseRangeText ∅ ("5-1") ≠ parseRangeText ∅ ("1-5") := by
  decide

/-- C2 amended: a hyphen fragment parses as the inclusive range between
its endpoints with reversed endpoints swapped, so the two orders always
give the same parsed index set and hence the same selection for every
valid set; the full results, invalid-fragment report included, coincide
whenever the whole range is valid (in particular over a valid set
containing 1..20), but not in general, since the report embeds the
fragment verbatim.  A fragment without a hyphen parses as a single
integer. -/
theorem C2_hyphen_swap (s t : String) (a b : Int)
    (hs : ('-') ∉ s.data) (ht : ('-') ∉ t.data)
    (ha : pyInt? s = some a) (hb : pyInt? t = some b) :
    parseSegment (s ++ ("-") ++ t) = some (Finset.Icc (min a b) (max a b))
    ∧ parseSegment (s ++ ("-") ++ t) = parseSegment (t ++ ("-") ++ s)
    ∧ parseSegment t = some ({b} : Finset Int)
    ∧ (∀ v : Finset Int, (parseRangeText v ("5-1")).1 = (parseRangeText v ("1-5")).1)
    ∧ (∀ v : Finset Int, Finset.Icc (1 : Int) 5 ⊆ v →
        parseRangeText v ("5-1") = parseRangeText v ("1-5")) := by
  have e1 : parseSegment ("5-1") = some (Finset.Icc (1 : Int) 5) := by decide
  have e2 : parseSegment ("1-5") = some (Finset.Icc (1 : Int) 5) := by decide
  have hs1 : splitSegments ("5-1") = [("5-1" : String)] := by decide
  have hs2 : splitSegments ("1-5") = [("1-5" : String)] := by decide
  refine ⟨parseSegment_append_hyphen s t a b hs ha hb, ?_, ?_, ?_, ?_⟩
  · rw [parseSegment_append_hyphen s t a b hs ha hb,
      parseSegment_append_hyphen t s b a ht hb ha, min_comm, max_comm]
  · rw [parseSegment_no_hyphen t ht, hb]
    rfl
  · intro v
    unfold parseRangeText
    rw [hs1, hs2, parseSegments_single, parseSegments_single]
    show segContribution v ("5-1") = segContribution v ("1-5")
    unfold segContribution
    rw [e1, e2]
  · intro v hsub
    unfold parseRangeText
    rw [hs1, hs2, parseSegments_single, parseSegments_single]
    unfold segContribution segReport
    rw [e1, e2]
    simp [Finset.sdiff_eq_empty_iff_subset.mpr hsub]

/-- C2 witness. -/
theorem C2_hyphen_swap_witness :
    parseSegment (("5") ++ ("-") ++ ("1")) = some (Finset.Icc (1 : Int) 5) := by
  have h := C2_hyphen_swap ("5") ("1") 5 1 (by decide) (by decide) (by decide) (by decide)
  rw [h.1]
  norm_num

/-- C3: the selection is the de-duplicated union of fragment
contributions, invariant under reordering of the fragments, and its
presentation is strictly ascending; parsing 1,1,2 against the valid set
containing 1 and 2 yields exactly that two-element set. -/
theorem C3_selection_dedup_sorted (valid : Finset Int) (s1 s2 : List String) (input : String)
    (h : s1.Perm s2) :
    (parseSegments valid s1).1 = (parseSegments valid s2).1
    ∧ (sortedSelection (parseRangeText valid input).1).Sorted (· < ·)
    ∧ (sortedSelection (parseRangeText valid input).1).Nodup
    ∧ (sortedSelection (parseRangeText valid input).1).toFinset = (parseRangeText valid input).1
    ∧ parseRangeText {1, 2} ("1,1,2") = ({1, 2}, []) := by
  refine ⟨?_, sortedSelection_sorted_lt _, sortedSelection_nodup _,
    sortedSelection_toFinset _, by decide⟩
  rw [parseSegments_eq, parseSegments_eq]
  show unionContributions valid s1 = unionContributions valid s2
  exact unionContributions_perm valid s1 s2 h

/-- C3 witness. -/
theorem C3_selection_dedup_sorted_witness :
    (parseSegments {1, 2} [("1"), ("2")]).1 = (parseSegments {1, 2} [("2"), ("1")]).1 := by
  have h := C3_selection_dedup_sorted {1, 2} [("1"), ("2")] [("2"), ("1")] ("1,1,2") (by decide)
  exact h.1

/-- C10 counterexample: the claim asserts that spacing around the hyphen
changes neither the selected set nor the invalid-fragment report; the
selected sets agree but the report embeds the fragment verbatim, spaces
included, so the reports differ. -/
theorem C10_counterexample : parseRangeText ∅ ("1 - 2") ≠ parseRangeText ∅ ("1-2") := by
  decide

/-- C10 amended: both sides of the first hyphen are stripped before
integer conversion, so for all integers a and b and any whitespace
padding the selected set equals that of the unpadded fragment a-b; the
invalid-fragment report, however, records the fragment verbatim and may
differ textually. -/
theorem C10_padded_selection (valid : Finset Int) (a b : Int) (w1 w2 w3 w4 : String)
    (h1 : ∀ c ∈ w1.data, isPySpace c = true) (h2 : ∀ c ∈ w2.data, isPySpace c = true)
    (h3 : ∀ c ∈ w3.data, isPySpace c = true) (h4 : ∀ c ∈ w4.data, isPySpace c = true) :
    (parseRangeText valid (w1 ++ intToStr a ++ w2 ++ ("-") ++ w3 ++ intToStr b ++ w4)).1 =
      (parseRangeText valid (intToStr a ++ ("-") ++ intToStr b)).1 := by
  have hplain : (("" : String) ++ intToStr a ++ ("") ++ ("-") ++ ("") ++ intToStr b ++ ("")) =
      intToStr a ++ ("-") ++ intToStr b := by
    apply strExt
    simp [strData_append]
  have hempty : ∀ c ∈ ("" : String).data, isPySpace c = true :=
    fun c hc => absurd hc (List.not_mem_nil c)
  unfold parseRangeText
  rw [paddedFragment a b w1 w2 w3 w4 h1 h2 h3 h4]
  rw [← hplain, paddedFragment a b ("") ("") ("") ("") hempty hempty hempty hempty]
  rw [parseSegments_single, parseSegments_single]
  show segContribution valid _ = segContribution valid _
  apply segContribution_congr
  rw [parseSegment_padded a b w2 w3 h2 h3]
  congr 1
  simp

/-- C10 witness. -/
theorem C10_padded_selection_witness :
    (parseRangeText {1, 2} ((" ") ++ intToStr 1 ++ (" ") ++ ("-") ++ (" ") ++ intToStr 2 ++
      (" "))).1 = (parseRangeText {1, 2} (intToStr 1 ++ ("-") ++ intToStr 2)).1 :=
  C10_padded_selection {1, 2} 1 2 (" ") (" ") (" ") (" ")
    (by decide) (by decide) (by decide) (by decide)

/-! ## The range-input step (C4) -/

theorem rangeOutcome_empty (valid : Finset Int) (input : String)
    (h : splitSegments input = []) : rangeOutcome valid input = RangeOutcome.emptyInput := by
  unfold rangeOutcome
  rw [h]
  rfl

theorem rangeOutcome_noUsable (valid : Finset Int) (input : String)
    (h1 : splitSegments input ≠ [])
    (h2 : (parseSegments valid (splitSegments input)).1 = ∅) :
    rangeOutcome valid input =
      RangeOutcome.noUsable (parseSegments valid (splitSegments input)).2 := by
  unfold rangeOutcome
  have hemp : (splitSegments input).isEmpty = false := by
    cases hs : splitSegments input with
    | nil => exact absurd hs h1
    | cons a l => rfl
  simp only [hemp, Bool.false_eq_true, if_false]
  rw [if_pos h2]

theorem rangeOutcome_proceed (valid : Finset Int) (input : String)
    (h2 : (parseSegments valid (splitSegments input)).1 ≠ ∅) :
    rangeOutcome valid input =
      RangeOutcome.proceed (sortedSelection (parseSegments valid (splitSegments input)).1)
        (parseSegments valid (splitSegments input)).2 := by
  have h1 : splitSegments input ≠ [] := by
    intro hs
    apply h2
    rw [hs]
    rfl
  unfold rangeOutcome
  have hemp : (splitSegments input).isEmpty = false := by
    cases hs : splitSegments input with
    | nil => exact absurd hs h1
    | cons a l => rfl
  simp only [hemp, Bool.false_eq_true, if_false]
  rw [if_neg h2]

theorem handleRange_eq (id : String) (entry : BatchEntry) (m : EpisodeMap) (input : String)
    (hid : id ≠ ("" : String)) (hlook : resolveShort m id = some entry)
    (hemp : entry.cached_episodes.isEmpty = false) :
    handleEpisodeRangeInput (some id) m input =
      ((match rangeOutcome (indicesOf entry.cached_episodes) input with
        | RangeOutcome.emptyInput => RangeStep.promptEmpty
        | RangeOutcome.noUsable inv => RangeStep.promptNoUsable inv
        | RangeOutcome.proceed sorted _ =>
            RangeStep.submit (ImportRequest.mk entry.search_id entry.result_index
              (buildImportList entry.cached_episodes sorted))), m) := by
  unfold handleEpisodeRangeInput
  simp only [hlook, hemp, if_neg hid, Bool.false_eq_true, if_false]
  cases rangeOutcome (indicesOf entry.cached_episodes) input <;> rfl

/-- C4: with a live cached batch, the range-input step leaves the cache
untouched in every branch and distinguishes three outcomes: no
non-whitespace fragment gives the distinguished empty-input re-prompt, a
nonempty fragment list whose processing selects nothing gives the
no-usable-input re-prompt carrying the invalid fragments, and only a
nonempty selection submits an import; both re-prompt outcomes return the
conversation to the input state and carry no import request. -/
theorem C4_range_outcomes (id : String) (entry : BatchEntry) (m : EpisodeMap) (input : String)
    (hid : id ≠ ("" : String)) (hlook : resolveShort m id = some entry)
    (heps : entry.cached_episodes ≠ []) :
    (handleEpisodeRangeInput (some id) m input).2 = m
    ∧ (splitSegments input = [] →
        (handleEpisodeRangeInput (some id) m input).1 = RangeStep.promptEmpty)
    ∧ (splitSegments input ≠ [] →
        (parseRangeText (indicesOf entry.cached_episodes) input).1 = ∅ →
        (handleEpisodeRangeInput (some id) m input).1 =
          RangeStep.promptNoUsable (parseRangeText (indicesOf entry.cached_episodes) input).2)
    ∧ ((parseRangeText (indicesOf entry.cached_episodes) input).1 ≠ ∅ →
        (handleEpisodeRangeInput (some id) m input).1 =
          RangeStep.submit (ImportRequest.mk entry.search_id entry.result_index
            (buildImportList entry.cached_episodes
              (sortedSelection (parseRangeText (indicesOf entry.cached_episodes) input).1))))
    ∧ convStateOf RangeStep.promptEmpty = 1
    ∧ (∀ inv, convStateOf (RangeStep.promptNoUsable inv) = 1) := by
  have hemp : entry.cached_episodes.isEmpty = false := by
    cases hs : entry.cached_episodes with
    | nil => exact absurd hs heps
    | cons a l => rfl
  have hmain := handleRange_eq id entry m input hid hlook hemp
  refine ⟨by rw [hmain], ?_, ?_, ?_, rfl, fun inv => rfl⟩
  · intro hsegs
    rw [hmain, rangeOutcome_empty _ _ hsegs]
  · intro hsegs hsel
    rw [hmain, rangeOutcome_noUsable _ _ hsegs hsel]
    rfl
  · intro hsel
    rw [hmain, rangeOutcome_proceed _ _ hsel]
    rfl

/-- C4 witness. -/
theorem C4_range_outcomes_witness :
    (handleEpisodeRangeInput (some ("ab")) [(("ab"), BatchEntry.mk 0 ("s") 1 [sampleEpisode])]
      (" , ")).1 = RangeStep.promptEmpty := by
  have h := C4_range_outcomes ("ab") (BatchEntry.mk 0 ("s") 1 [sampleEpisode])
    [(("ab"), BatchEntry.mk 0 ("s") 1 [sampleEpisode])] (" , ")
    (by decide) (by decide) (by decide)
  exact h.2.1 (by decide)

/-! ## Pagination (C5) -/

/-- C5: the page count is the ceiling of the episode count over the fixed
page size ten, the requested page is clamped into the interval from one
to the page count, and the rendered window is exactly the slice from
(page-1)*10 to page*10; for 23 episodes there are 3 pages, page 1 shows
10 items, the request for page 5 clamps to page 3, which shows 3 items. -/
theorem C5_pagination (t : Nat) (p : Int) (eps : List RawEpisode) (ht : 1 ≤ t) :
    (10 * (totalPagesOf t - 1) < t ∧ t ≤ 10 * totalPagesOf t)
    ∧ (1 ≤ clampPage p (totalPagesOf t) ∧ clampPage p (totalPagesOf t) ≤ (totalPagesOf t : Int))
    ∧ renderedPageEpisodes eps t p =
        (eps.take ((clampPage p (totalPagesOf t) * 10).toNat)).drop
          (((clampPage p (totalPagesOf t) - 1) * 10).toNat)
    ∧ totalPagesOf 23 = 3
    ∧ clampPage 5 (totalPagesOf 23) = 3
    ∧ (renderedPageEpisodes (List.replicate 23 sampleEpisode) 23 1).length = 10
    ∧ (renderedPageEpisodes (List.replicate 23 sampleEpisode) 23 5).length = 3 := by
  have htp1 : 1 ≤ totalPagesOf t := by
    simp only [totalPagesOf, EPISODES_PER_PAGE]
    omega
  refine ⟨?_, ⟨le_max_left _ _, ?_⟩, ?_, by decide, by decide, by decide, by decide⟩
  · simp only [totalPagesOf, EPISODES_PER_PAGE]
    omega
  · apply max_le
    · exact_mod_cast htp1
    · exact min_le_right _ _
  · unfold renderedPageEpisodes
    simp only [EPISODES_PER_PAGE, Nat.cast_ofNat]
    have hpage1 : 1 ≤ clampPage p (totalPagesOf t) := le_max_left _ _
    have harith : ((clampPage p (totalPagesOf t)) * 10).toNat =
        (((clampPage p (totalPagesOf t)) - 1) * (10 : Int)).toNat + 10 := by
      omega
    rw [harith, List.drop_take]
    simp

/-- C5 witness. -/
theorem C5_pagination_witness : totalPagesOf 23 = 3 :=
  (C5_pagination 23 5 (List.replicate 23 sampleEpisode) (by decide)).2.2.2.1

/-! ## The episode filter and the empty-fetch render (C6) -/

/-- C6 counterexample: the claim says an episode is retained only when
all four fields are present and non-empty; an episode whose provider is
present but the empty string is retained by the filter while the claimed
retention rule rejects it. -/
theorem C6_counterexample :
    filterEpisodes [RawEpisode.mk (some ("")) (some ("e")) (some ("t")) (some 1)] =
      [RawEpisode.mk (some ("")) (some ("e")) (some ("t")) (some 1)]
    ∧ specRetained (RawEpisode.mk (some ("")) (some ("e")) (some ("t")) (some 1)) = false := by
  decide

/-- C6 amended: an episode is retained in the cached batch exactly when
all four of provider, episodeId, title and episodeIndex are present, with
no emptiness check on the values; and when no episode survives the
filter, the first-fetch handler caches nothing and renders the
no-episodes message whose only control is the retry control. -/
theorem C6_filter_presence (raw raw2 : List RawEpisode) (e : RawEpisode) (s : String)
    (ri : Int) (m : EpisodeMap) (hEmpty : filterEpisodes raw = []) :
    (e ∈ filterEpisodes raw2 ↔ e ∈ raw2 ∧ hasAllKeys e = true)
    ∧ handleFirstFetch s ri raw m = (FetchRender.noEpisodes [retryPayload ri], m) := by
  constructor
  · simp [filterEpisodes, List.mem_filter]
  · simp [handleFirstFetch, hEmpty]

/-- C6 witness. -/
theorem C6_filter_presence_witness :
    handleFirstFetch ("s") 0 [RawEpisode.mk none none none none] [] =
      (FetchRender.noEpisodes [retryPayload 0], []) := by
  have h := C6_filter_presence [RawEpisode.mk none none none none] [sampleEpisode]
    sampleEpisode ("s") 0 [] (by decide)
  exact h.2

/-! ## Short identifiers (C7) -/

theorem md5Digest_length (msg : List Nat) : (md5Digest msg).length = 16 := by
  unfold md5Digest leBytes
  simp

theorem isHexChar_hexChar (n : Nat) : isHexChar (hexChar n) = true := by
  have h : n % 16 < 16 := Nat.mod_lt n (by norm_num)
  unfold hexChar
  obtain ⟨k, hk, hmod⟩ : ∃ k, k < 16 ∧ n % 16 = k := ⟨n % 16, h, rfl⟩
  rw [hmod]
  interval_cases k <;> decide

theorem md5Hex_data (msg : List Nat) :
    (md5Hex msg).data = ((md5Digest msg).map byteHex).flatten :=
  rfl

theorem md5Hex_length (msg : List Nat) : (md5Hex msg).data.length = 32 := by
  rw [md5Hex_data, List.length_flatten, List.map_map]
  have hcomp : (List.length ∘ byteHex) = fun (_ : Nat) => 2 := rfl
  rw [hcomp, List.map_const', List.sum_replicate, md5Digest_length]
  rfl

theorem md5Hex_chars (msg : List Nat) : ∀ c ∈ (md5Hex msg).data, isHexChar c = true := by
  intro c hc
  rw [md5Hex_data] at hc
  rw [List.mem_flatten] at hc
  obtain ⟨l, hl, hcl⟩ := hc
  rw [List.mem_map] at hl
  obtain ⟨b, _, hb⟩ := hl
  subst hb
  unfold byteHex at hcl
  simp only [List.mem_cons, List.not_mem_nil, or_false] at hcl
  rcases hcl with h | h
  · exact h ▸ isHexChar_hexChar _
  · exact h ▸ isHexChar_hexChar _

/-- C7: the minted short identifier is the first 8 hex characters of the
MD5 hex digest of searchId, an underscore and the decimal result index;
it has length 8 and consists of hex characters, the identifier under
which the batch is registered is exactly this shortId, and resolving it
against the updated cache returns exactly the batch that was cached. -/
theorem C7_short_id (s : String) (i : Int) (eps : List RawEpisode) (m : EpisodeMap) :
    mintShortId s i = pyTake 8 (md5Hex (utf8Bytes (s ++ ("_") ++ intToStr i)))
    ∧ pyLen (mintShortId s i) = 8
    ∧ (∀ c ∈ (mintShortId s i).data, isHexChar c = true)
    ∧ (registerBatch s i eps m).1 = mintShortId s i
    ∧ resolveShort (registerBatch s i eps m).2 (mintShortId s i) =
        some (BatchEntry.mk i s eps.length eps) := by
  refine ⟨rfl, ?_, ?_, rfl, ?_⟩
  · show ((md5Hex (utf8Bytes (s ++ ("_") ++ intToStr i))).data.take 8).length = 8
    rw [List.length_take, md5Hex_length]
    norm_num
  · intro c hc
    exact md5Hex_chars _ c (List.take_subset 8 _ hc)
  · show List.lookup (mintShortId s i)
      ((mintShortId s i, BatchEntry.mk i s eps.length eps) :: m) = _
    simp [List.lookup]

/-! ## Payload sizes and truncation (C8) -/

theorem escChar_hex (c : Char) (h : isHexChar c = true) : escChar c = [c] := by
  have hm : c ∈ hexAlphabet := List.mem_of_elem_eq_true h
  unfold hexAlphabet at hm
  fin_cases hm <;> decide

theorem jsonEscape_hex :
    ∀ (l : List Char), (∀ c ∈ l, isHexChar c = true) → ((l.map escChar).flatten) = l := by
  intro l
  induction l with
  | nil => intro _; rfl
  | cons c cs ih =>
      intro h
      simp only [List.map_cons, List.flatten_cons,
        escChar_hex c (h c (List.mem_cons_self c cs))]
      rw [ih (fun x hx => h x (List.mem_cons_of_mem c hx))]
      rfl

theorem jsonQuote_hex (d : String) (h : ∀ c ∈ d.data, isHexChar c = true) :
    jsonQuote d = ("\"") ++ d ++ ("\"") := by
  unfold jsonQuote
  rw [jsonEscape_hex d.data h, strMk_data]

theorem pyLen_jsonQuote_hex (d : String) (h : ∀ c ∈ d.data, isHexChar c = true) :
    pyLen (jsonQuote d) = pyLen d + 2 := by
  rw [jsonQuote_hex d h, pyLen_append, pyLen_append]
  have h1 : pyLen ("\"") = 1 := rfl
  omega

theorem pyLen_mkSwitchPayload (d : String) (p : Int) (h : ∀ c ∈ d.data, isHexChar c = true) :
    pyLen (mkSwitchPayload d p) = 44 + pyLen d + pyLen (intToStr p) := by
  unfold mkSwitchPayload
  rw [pyLen_append, pyLen_append, pyLen_append, pyLen_append, pyLen_jsonQuote_hex d h]
  have h1 : pyLen ("\x7b\"a\": \"switch_episode_page\", \"d\": ") = 34 := by decide
  have h2 : pyLen (", \"p\": ") = 7 := by decide
  have h3 : pyLen ("\x7d") = 1 := by decide
  omega

theorem pyLen_mkInputPayload (d : String) (h : ∀ c ∈ d.data, isHexChar c = true) :
    pyLen (mkInputPayload d) = 35 + pyLen d := by
  unfold mkInputPayload
  rw [pyLen_append, pyLen_append, pyLen_jsonQuote_hex d h]
  have h1 : pyLen ("\x7b\"a\": \"start_input_range\", \"d\": ") = 32 := by decide
  have h3 : pyLen ("\x7d") = 1 := by decide
  omega

theorem natToStrAux_length_le :
    ∀ (n k fuel : Nat), 1 ≤ k → n < 10 ^ k → n < fuel → (natToStrAux fuel n).length ≤ k := by
  intro n
  induction n using Nat.strong_induction_on with
  | _ n ih =>
      intro k fuel hk hnk hnf
      cases fuel with
      | zero => omega
      | succ f =>
          by_cases hn : n < 10
          · simp [natToStrAux, hn]
            omega
          · simp only [natToStrAux, hn, if_false, List.length_append, List.length_singleton]
            have hk2 : 2 ≤ k := by
              by_contra hc
              have hk1 : k = 1 := by omega
              rw [hk1, pow_one] at hnk
              omega
            have hdiv : n / 10 < n := Nat.div_lt_self (by omega) (by omega)
            have hpow : 10 ^ k = 10 ^ (k - 1) * 10 := by
              rw [← pow_succ]
              congr 1
              omega
            have hnd : n / 10 < 10 ^ (k - 1) := by
              rw [Nat.div_lt_iff_lt_mul (by omega)]
              rw [hpow] at hnk
              exact hnk
            have hf : n / 10 < f := by omega
            have := ih (n / 10) hdiv (k - 1) f (by omega) hnd hf
            omega

theorem pyLen_intToStr_le (p : Int) (h1 : 1 ≤ p) (h2 : p ≤ 999999999999) :
    pyLen (intToStr p) ≤ 12 := by
  have hnn : ¬ p < 0 := by omega
  unfold pyLen
  rw [intToStr_data_nonneg p hnn]
  apply natToStrAux_length_le p.toNat 12 (p.toNat + 1) (by omega) _ (by omega)
  have hb : p.toNat ≤ 999999999999 := by omega
  have hp : (10 : Nat) ^ 12 = 1000000000000 := by norm_num
  omega

theorem switchControl_short (d : String) (p : Int) (hd : pyLen d = 8)
    (hhex : ∀ c ∈ d.data, isHexChar c = true) (hp1 : 1 ≤ p) (hp2 : p ≤ 999999999999) :
    switchControl d p = (mkSwitchPayload d p, d) ∧ pyLen (mkSwitchPayload d p) ≤ 64 := by
  have hlen : pyLen (mkSwitchPayload d p) = 52 + pyLen (intToStr p) := by
    rw [pyLen_mkSwitchPayload d p hhex, hd]
  have hle : pyLen (mkSwitchPayload d p) ≤ 64 := by
    have := pyLen_intToStr_le p hp1 hp2
    omega
  refine ⟨?_, hle⟩
  unfold switchControl CALLBACK_DATA_MAX_LEN
  rw [if_neg (by omega)]

theorem inputControl_short (d : String) (hd : pyLen d = 8)
    (hhex : ∀ c ∈ d.data, isHexChar c = true) :
    inputControl d = (mkInputPayload d, d) ∧ pyLen (mkInputPayload d) ≤ 64 := by
  have hlen : pyLen (mkInputPayload d) = 43 := by
    rw [pyLen_mkInputPayload d hhex, hd]
  refine ⟨?_, by omega⟩
  unfold inputControl CALLBACK_DATA_MAX_LEN
  rw [if_neg (by omega)]

theorem renderSwitchControls_prev (total : Nat) (d : String) (ri reqPage : Int) :
    (renderSwitchControls total d ri reqPage).prev =
      if 1 < totalPagesOf total ∧ 1 < clampPage reqPage (totalPagesOf total) then
        some (switchControl d (clampPage reqPage (totalPagesOf total) - 1))
      else none :=
  rfl

theorem renderSwitchControls_next (total : Nat) (d : String) (ri reqPage : Int) :
    (renderSwitchControls total d ri reqPage).next =
      if 1 < totalPagesOf total ∧
          clampPage reqPage (totalPagesOf total) < (totalPagesOf total : Int) then
        some (switchControl d (clampPage reqPage (totalPagesOf total) + 1))
      else none :=
  rfl

theorem renderSwitchControls_inputRange (total : Nat) (d : String) (ri reqPage : Int) :
    (renderSwitchControls total d ri reqPage).inputRange = inputControl d :=
  rfl

/-- C8 counterexample: the claim asserts every rendered identifier-bearing
control stays within the 64-character ceiling after truncation; for a
batch of 10000000000010 episodes the previous-page payload carries a
thirteen-digit page number, and since the truncation step only shortens
the already 8-character identifier, the emitted payload has 65
characters. -/
theorem C8_counterexample :
    withinLimit (renderSwitchControls 10000000000010 ("0abc12ef") 0 10000000000000) = false := by
  decide

/-- C8 amended: with a registered 8-character hex identifier and a batch
of fewer than about ten thousand billion episodes (page numbers of at
most twelve digits), every identifier-bearing control payload fits the
64-character ceiling, the first serialization is kept, and the
identifier each control embeds is exactly the registered one, so
resolving it against the cache is the same as resolving the original. -/
theorem C8_payload_limit (total : Nat) (d : String) (ri reqPage : Int)
    (hd : pyLen d = 8) (hhex : ∀ c ∈ d.data, isHexChar c = true)
    (htotal : total ≤ 9999999999990) :
    withinLimit (renderSwitchControls total d ri reqPage) = true
    ∧ (∀ pc ∈ (renderSwitchControls total d ri reqPage).prev, pc.2 = d)
    ∧ (∀ pc ∈ (renderSwitchControls total d ri reqPage).next, pc.2 = d)
    ∧ (renderSwitchControls total d ri reqPage).inputRange.2 = d
    ∧ (∀ mp : EpisodeMap,
        resolveShort mp ((renderSwitchControls total d ri reqPage).inputRange.2) =
          resolveShort mp d) := by
  have htpb : totalPagesOf total ≤ 999999999999 := by
    simp only [totalPagesOf, EPISODES_PER_PAGE]
    omega
  have htpbZ : (totalPagesOf total : Int) ≤ 999999999999 := by exact_mod_cast htpb
  have hpage1 : 1 ≤ clampPage reqPage (totalPagesOf total) := le_max_left _ _
  have hinput := inputControl_short d hd hhex
  have hprevOk : ∀ pc ∈ (renderSwitchControls total d ri reqPage).prev,
      pc.2 = d ∧ pyLen pc.1 ≤ 64 := by
    intro pc hpc
    rw [renderSwitchControls_prev] at hpc
    by_cases hA : 1 < totalPagesOf total ∧ 1 < clampPage reqPage (totalPagesOf total)
    · rw [if_pos hA] at hpc
      have hpageTp : clampPage reqPage (totalPagesOf total) ≤ (totalPagesOf total : Int) := by
        apply max_le
        · exact_mod_cast hA.1.le
        · exact min_le_right _ _
      have hsc := switchControl_short d (clampPage reqPage (totalPagesOf total) - 1) hd hhex
        (by omega) (by omega)
      rw [hsc.1] at hpc
      simp only [Option.mem_def, Option.some_inj] at hpc
      rw [← hpc]
      exact ⟨rfl, hsc.2⟩
    · rw [if_neg hA] at hpc
      cases hpc
  have hnextOk : ∀ pc ∈ (renderSwitchControls total d ri reqPage).next,
      pc.2 = d ∧ pyLen pc.1 ≤ 64 := by
    intro pc hpc
    rw [renderSwitchControls_next] at hpc
    by_cases hB : 1 < totalPagesOf total ∧
        clampPage reqPage (totalPagesOf total) < (totalPagesOf total : Int)
    · rw [if_pos hB] at hpc
      have hsc := switchControl_short d (clampPage reqPage (totalPagesOf total) + 1) hd hhex
        (by omega) (by omega)
      rw [hsc.1] at hpc
      simp only [Option.mem_def, Option.some_inj] at hpc
      rw [← hpc]
      exact ⟨rfl, hsc.2⟩
    · rw [if_neg hB] at hpc
      cases hpc
  refine ⟨?_, fun pc hpc => (hprevOk pc hpc).1, fun pc hpc => (hnextOk pc hpc).1, ?_, ?_⟩
  · unfold withinLimit
    simp only [Bool.and_eq_true]
    refine ⟨⟨?_, ?_⟩, ?_⟩
    · cases hp : (renderSwitchControls total d ri reqPage).prev with
      | none => rfl
      | some pc =>
          have := (hprevOk pc (by rw [hp]; rfl)).2
          simp only [Option.all, decide_eq_true_eq]
          simpa [CALLBACK_DATA_MAX_LEN] using this
    · cases hp : (renderSwitchControls total d ri reqPage).next with
      | none => rfl
      | some pc =>
          have := (hnextOk pc (by rw [hp]; rfl)).2
          simp only [Option.all, decide_eq_true_eq]
          simpa [CALLBACK_DATA_MAX_LEN] using this
    · rw [renderSwitchControls_inputRange, hinput.1]
      simp only [decide_eq_true_eq, CALLBACK_DATA_MAX_LEN]
      exact hinput.2
  · rw [renderSwitchControls_inputRange, hinput.1]
  · intro mp
    rw [renderSwitchControls_inputRange, hinput.1]

/-- C8 witness. -/
theorem C8_payload_limit_witness :
    withinLimit (renderSwitchControls 23 ("0abc12ef") 0 5) = true := by
  have h := C8_payload_limit 23 ("0abc12ef") 0 5 (by decide) (by decide) (by decide)
  exact h.1

/-! ## Callback vocabularies (C9) -/

/-- C9 counterexample: the claim asserts every emitted control payload
uses only the short field names; the import-all control emitted with the
page view carries the legacy long field names action and result_index. -/
theorem C9_counterexample :
    hasSubstring ("\"action\"") ((renderSwitchControls 23 ("0abc12ef") 7 1).importAll) = true
    ∧ hasSubstring ("\"result_index\"")
        ((renderSwitchControls 23 ("0abc12ef") 7 1).importAll) = true := by
  decide

/-- C9 amended: the parser accepts both vocabularies, producing the same
action, identifier and page triple from short and long field names with
truthy values; the pagination and input-range controls emit the short
field names only, while the import-all control (and the retry control)
keeps the legacy long field names, since the import callback handler
reads action and result_index. -/
theorem C9_vocabulary (act id : String) (pg : Int)
    (ha : act ≠ ("" : String)) (hi : id ≠ ("" : String)) :
    (parsedAction (shortFields act id pg) = parsedAction (longFields act id pg)
     ∧ parsedDataId (shortFields act id pg) = parsedDataId (longFields act id pg)
     ∧ parsedPage (shortFields act id pg) = parsedPage (longFields act id pg))
    ∧ hasSubstring ("\"a\"") (mkSwitchPayload ("0abc12ef") 2) = true
    ∧ hasSubstring ("\"action\"") (mkSwitchPayload ("0abc12ef") 2) = false
    ∧ hasSubstring ("\"a\"") (mkInputPayload ("0abc12ef")) = true
    ∧ hasSubstring ("\"action\"") (mkInputPayload ("0abc12ef")) = false
    ∧ hasSubstring ("\"action\"") (mkImportPayload 3) = true := by
  refine ⟨⟨?_, ?_, ?_⟩, by decide, by decide, by decide, by decide, by decide⟩
  · simp [parsedAction, shortFields, longFields, pyOrStr, ha]
  · simp [parsedDataId, shortFields, longFields, pyOrStr, hi]
  · rfl

/-- C9 witness. -/
theorem C9_vocabulary_witness :
    parsedPage (shortFields ("switch_episode_page") ("0abc12ef") 2) =
      parsedPage (longFields ("switch_episode_page") ("0abc12ef") 2) := by
  have h := C9_vocabulary ("switch_episode_page") ("0abc12ef") 2 (by decide) (by decide)
  exact h.1.2.2

/-! ## Concrete evaluations

Regression facts pinning the embedding to concrete behavior, including
the RFC 1321 test vectors for the embedded MD5. -/

theorem md5_vector_abc : md5Hex (utf8Bytes ("abc")) = ("900150983cd24fb0d6963f7d28e17f72") := by
  decide

theorem md5_vector_empty : md5Hex (utf8Bytes ("")) = ("d41d8cd98f00b204e9800998ecf8427e") := by
  decide

theorem mintShortId_concrete : mintShortId ("s") 3 = ("5189df23") := by
  decide

theorem parseRangeText_dedup_concrete : parseRangeText {1, 2} ("1,1,2") = ({1, 2}, []) := by
  decide

theorem parseRangeText_verbatim_concrete : parseRangeText {1} ("abc") = (∅, [("abc")]) := by
  decide

theorem parseRangeText_range_concrete :
    (parseRangeText (Finset.Icc 1 20) ("1-10")).1 = Finset.Icc 1 10 := by
  decide

theorem rangeOutcome_blank_concrete : rangeOutcome {1, 2} ("  ,  ") = RangeOutcome.emptyInput := by
  decide

theorem rangeOutcome_noUsable_concrete :
    rangeOutcome {1, 2} ("9") = RangeOutcome.noUsable [("9（无效集数：[9]）")] := by
  decide

theorem rangeOutcome_proceed_concrete :
    rangeOutcome {1, 2, 3} ("3,1 - 2") = RangeOutcome.proceed [1, 2, 3] [] := by
  decide

theorem mkSwitchPayload_len_concrete : pyLen (mkSwitchPayload ("5189df23") 2) = 53 := by
  decide

theorem mkInputPayload_len_concrete : pyLen (mkInputPayload ("5189df23")) = 43 := by
  decide
